import Mathlib

/-!
Shallow embedding of the ToDo-List Manager web application
(`Final Project ToDo-List- Manager/app.py`).

The persistent state is modelled as plain lists: `List User` for the
`user` table and `List Task` for the `task` table.  Each route handler
becomes a pure function from the relevant table (plus the request
parameters and the identity of the authenticated user) to a result code
and the updated table.  The result codes stand for the flash messages of
the application: `validationError` for "Please enter text for your
task", `formatError` for "Invalid date format", `notFoundOrForbidden`
for "Task not found or unauthorized action", and the register conflicts
for the duplicate-username / duplicate-email messages.

`datetime.strptime(s, "%Y-%m-%d")` is modelled after the CPython
`_strptime` module: the year matches exactly four digits, the month matches
`1[0-2]|0[1-9]|[1-9]`, the day matches `3[01]|[12]\d|0[1-9]|[1-9]| [1-9]`,
the whole string must be consumed, and the resulting triple must be a
valid calendar date (day within the month length, year at least 1).
-/

namespace ToDoApp

/-- Calendar date, the payload of a parsed `%Y-%m-%d` string. -/
structure Date where
  year : Nat
  month : Nat
  day : Nat
deriving DecidableEq, Repr

/-- Timestamp: a calendar date plus a second-of-day offset.  Task due
dates produced by `strptime` have offset 0; `datetime.now()` is an
arbitrary timestamp.  Ordering is lexicographic, as in Python. -/
structure DateTime where
  date : Date
  sec : Nat
deriving DecidableEq, Repr

/-- Strict lexicographic order on dates (Python `datetime` comparison,
date part). -/
def dateLtB (a b : Date) : Bool :=
  decide (a.year < b.year ∨ (a.year = b.year ∧
    (a.month < b.month ∨ (a.month = b.month ∧ a.day < b.day))))

/-- Strict order on timestamps: date first, then second-of-day. -/
def dtLtB (a b : DateTime) : Bool :=
  dateLtB a.date b.date || (a.date == b.date && decide (a.sec < b.sec))

/-- Split a character list at every dash, mirroring what the fixed
format string `%Y-%m-%d` does to the input (no legal field contains a
dash, so the regex match succeeds exactly when the dash-separated parts
match the field patterns). -/
def splitDash : List Char → List (List Char)
  | [] => [[]]
  | c :: cs =>
    match splitDash cs with
    | [] => [[c]]
    | h :: t => if c = '-' then [] :: h :: t else (c :: h) :: t

/-- Numeric value of a digit string (the `int(...)` applied to a matched
group). -/
def digitsVal (l : List Char) : Nat :=
  l.foldl (fun a c => a * 10 + (c.toNat - 48)) 0

/-- Year field of `%Y`: exactly four digits. -/
def yearField (l : List Char) : Option Nat :=
  if l.length = 4 && l.all Char.isDigit then some (digitsVal l) else none

/-- Month field of `%m`: one or two digits with value 1..12. -/
def monthField (l : List Char) : Option Nat :=
  if l.all Char.isDigit && decide (1 ≤ l.length) && decide (l.length ≤ 2) then
    let m := digitsVal l
    if decide (1 ≤ m) && decide (m ≤ 12) then some m else none
  else none

/-- Day field of `%d`: one or two digits with value 1..31, or a space
followed by a nonzero digit. -/
def dayField (l : List Char) : Option Nat :=
  if l.all Char.isDigit && decide (1 ≤ l.length) && decide (l.length ≤ 2) then
    let d := digitsVal l
    if decide (1 ≤ d) && decide (d ≤ 31) then some d else none
  else
    match l with
    | [' ', c] => if decide ('1' ≤ c) && decide (c ≤ '9') then some (c.toNat - 48) else none
    | _ => none

/-- Gregorian leap-year test used by `datetime`. -/
def isLeapYear (y : Nat) : Bool :=
  y % 4 == 0 && (y % 100 != 0 || y % 400 == 0)

/-- Length of a month in a given year. -/
def daysInMonth (y m : Nat) : Nat :=
  if m == 2 then (if isLeapYear y then 29 else 28)
  else if m == 4 || m == 6 || m == 9 || m == 11 then 30
  else 31

/-- Model of `datetime.strptime(s, "%Y-%m-%d")`: `some` of the parsed
date on success, `none` when CPython would raise `ValueError` (field
pattern mismatch, unconverted trailing data, or an invalid calendar date
such as a day out of range for the month). -/
def strptimeYMD (s : String) : Option Date :=
  match splitDash s.data with
  | [ys, ms, ds] =>
    match yearField ys, monthField ms, dayField ds with
    | some y, some m, some d =>
      if decide (1 ≤ y) && decide (d ≤ daysInMonth y m) then some ⟨y, m, d⟩ else none
    | _, _, _ => none
  | _ => none

/-- Row of the `task` table. -/
structure Task where
  id : Nat
  content : String
  done : Bool
  due_date : Option DateTime
  user_id : Nat
deriving DecidableEq, Repr

/-- Row of the `user` table. -/
structure User where
  id : Nat
  username : String
  email : String
  password : String
deriving DecidableEq, Repr

/-- Outcome of the add-task route. -/
inductive AddResult where
  | validationError
  | formatError
  | ok
deriving DecidableEq, Repr

/-- Outcome of the toggle / delete / resolve routes. -/
inductive ActionResult where
  | notFoundOrForbidden
  | ok
deriving DecidableEq, Repr

/-- Outcome of the register route. -/
inductive RegisterResult where
  | conflictUsername
  | conflictEmail
  | ok
deriving DecidableEq, Repr

/-- Route `GET /index` (`tasks_list`): `Task.query.filter_by(user_id=current_user.id).all()`. -/
def tasks_list (uid : Nat) (tasks : List Task) : List Task :=
  tasks.filter (fun t => t.user_id == uid)

/-- Route `POST /task` (`add_task`): reject empty content, then parse the
due date with `strptime`; on success insert a row whose `done` column
takes its default value `False`.  `nid` is the primary key the database
assigns to the inserted row. -/
def add_task (uid : Nat) (content due_date : String) (nid : Nat)
    (tasks : List Task) : AddResult × List Task :=
  if content = "" then (AddResult.validationError, tasks)
  else
    match strptimeYMD due_date with
    | none => (AddResult.formatError, tasks)
    | some d =>
      (AddResult.ok, tasks ++
        [{ id := nid, content := content, done := false,
           due_date := some { date := d, sec := 0 }, user_id := uid }])

/-- Route `POST /toggle` (`toggle_status`): look the task up by primary
key; if it exists and is owned by the current user, negate its `done`
column, otherwise change nothing. -/
def toggle_status (uid tid : Nat) (tasks : List Task) : ActionResult × List Task :=
  match tasks.find? (fun t => t.id == tid) with
  | some t =>
    if t.user_id == uid then
      (ActionResult.ok,
        tasks.map (fun x => if x.id == tid then { x with done := !x.done } else x))
    else (ActionResult.notFoundOrForbidden, tasks)
  | none => (ActionResult.notFoundOrForbidden, tasks)

/-- Route `GET /delete/<task_id>` (`delete_task`): look the task up by
primary key; if it exists and is owned by the current user, delete the
row, otherwise change nothing. -/
def delete_task (uid tid : Nat) (tasks : List Task) : ActionResult × List Task :=
  match tasks.find? (fun t => t.id == tid) with
  | some t =>
    if t.user_id == uid then
      (ActionResult.ok, tasks.filter (fun x => !(x.id == tid)))
    else (ActionResult.notFoundOrForbidden, tasks)
  | none => (ActionResult.notFoundOrForbidden, tasks)

/-- Route `GET /finished` (`resolve_tasks`): set `done := true` on every
not-yet-done task of the current user; rows of other users are not
touched. -/
def resolve_tasks (uid : Nat) (tasks : List Task) : ActionResult × List Task :=
  (ActionResult.ok,
    tasks.map (fun t => if t.user_id == uid && !t.done then { t with done := true } else t))

/-- Aggregates rendered by the analytics view. -/
structure Summary where
  total_tasks : Nat
  completed_tasks : Nat
  pending_tasks : Nat
  overdue_tasks : Nat
deriving DecidableEq, Repr

/-- Route `GET /analytics` (`analytics`): read the tasks of the current user
and count them; `overdue_tasks` ranges over tasks with a non-null due
date only (`for task in tasks if task.due_date`).  The table is returned
unchanged: the handler performs no write. -/
def analytics (uid : Nat) (now : DateTime) (tasks : List Task) :
    Summary × List Task :=
  let ts := tasks.filter (fun t => t.user_id == uid)
  ({ total_tasks := ts.length,
     completed_tasks := ts.countP (fun t => t.done),
     pending_tasks := ts.length - ts.countP (fun t => t.done),
     overdue_tasks := ts.countP (fun t =>
       match t.due_date with
       | some d => dtLtB d now && !t.done
       | none => false) },
   tasks)

/-- Modelled from the spec: `werkzeug.security.generate_password_hash`
is external library code, so its digest is modelled as a deterministic
salted digest of the password, injective in (salt, password).  Each
character is expanded into a quotient/remainder pair of code points, so
the digest determines its input but is not the input.  True one-wayness
is a computational property outside the embedding. -/
def hashChar (c : Char) : List Char :=
  [Char.ofNat (c.toNat / 1024), Char.ofNat (c.toNat % 1024)]

/-- Digest of a character list, one `hashChar` block per character. -/
def hashDigest : List Char → List Char
  | [] => []
  | c :: cs => hashChar c ++ hashDigest cs

/-- Modelled from the spec: the stored credential format of
`generate_password_hash(password, method="pbkdf2:sha256")`, namely
`method$salt$digest` where the digest is a salted one-way hash of the
password. -/
def generate_password_hash (salt password : String) : String :=
  String.mk ("pbkdf2:sha256".data ++ '$' :: salt.data ++ '$' ::
    hashDigest (salt.data ++ password.data))

/-- Modelled from the spec: `werkzeug.security.check_password_hash`
splits the stored credential into method, salt and digest at the first
two dollar signs, recomputes the digest of the candidate password with
the stored salt, and compares. -/
def check_password_hash (pwhash password : String) : Bool :=
  let cs := pwhash.data
  let method := cs.takeWhile (fun c => !(c == '$'))
  let r1 := (cs.dropWhile (fun c => !(c == '$'))).drop 1
  let salt := r1.takeWhile (fun c => !(c == '$'))
  let dig := (r1.dropWhile (fun c => !(c == '$'))).drop 1
  method == "pbkdf2:sha256".data && dig == hashDigest (salt ++ password.data)

/-- Route `POST /register` (`register`): reject a taken username, then a
taken email, otherwise insert one `User` row with the hashed password.
`salt` stands for the random salt drawn by the hash library and `nid`
for the primary key assigned to the new row. -/
def register (username email password salt : String) (nid : Nat)
    (users : List User) : RegisterResult × List User :=
  match users.find? (fun u => u.username == username) with
  | some _ => (RegisterResult.conflictUsername, users)
  | none =>
    match users.find? (fun u => u.email == email) with
    | some _ => (RegisterResult.conflictEmail, users)
    | none =>
      (RegisterResult.ok, users ++
        [{ id := nid, username := username, email := email,
           password := generate_password_hash salt password }])


/-- Decoder for `hashDigest`: reads the quotient/remainder pairs back. -/
def unhashDigest : List Char → List Char
  | a :: b :: rest => Char.ofNat (a.toNat * 1024 + b.toNat) :: unhashDigest rest
  | _ => []

end ToDoApp

namespace ToDoApp

/-- Code point of every character is below the Unicode bound. -/
lemma char_toNat_lt (c : Char) : c.toNat < 1114112 := by
  rcases c.valid with h | h
  · exact Nat.lt_trans h (by norm_num)
  · exact h.2

/-- Code of `Char.ofNat` below the surrogate range. -/
lemma toNat_ofNat_lt {n : Nat} (h : n < 55296) : (Char.ofNat n).toNat = n := by
  have hv : n.isValidChar := Or.inl h
  simp [Char.ofNat, hv, Char.ofNatAux, Char.toNat]
  rfl

/-- The decoder is a left inverse of the digest, so the digest is
injective. -/
lemma unhashDigest_hashDigest (l : List Char) : unhashDigest (hashDigest l) = l := by
  induction l with
  | nil => rfl
  | cons c cs ih =>
    have hlt := char_toNat_lt c
    have h1 : c.toNat / 1024 < 55296 := by omega
    have h2 : c.toNat % 1024 < 55296 := by omega
    simp only [hashDigest, hashChar, List.cons_append, List.nil_append, unhashDigest,
      toNat_ofNat_lt h1, toNat_ofNat_lt h2, ih]
    rw [show c.toNat / 1024 * 1024 + c.toNat % 1024 = c.toNat by omega]
    rw [Char.ofNat_toNat]
    simp [ih]

lemma hashDigest_inj {l₁ l₂ : List Char} (h : hashDigest l₁ = hashDigest l₂) :
    l₁ = l₂ := by
  have := congrArg unhashDigest h
  rwa [unhashDigest_hashDigest, unhashDigest_hashDigest] at this

lemma hashDigest_length (l : List Char) : (hashDigest l).length = 2 * l.length := by
  induction l with
  | nil => rfl
  | cons c cs ih => simp [hashDigest, hashChar, ih]; omega

lemma takeWhile_nodollar (l r : List Char) (h : ∀ c ∈ l, c ≠ '$') :
    (l ++ '$' :: r).takeWhile (fun c => !(c == '$')) = l := by
  induction l with
  | nil => simp [List.takeWhile_cons]
  | cons a as ih =>
    have ha : a ≠ '$' := h a (List.mem_cons_self a as)
    simp only [List.cons_append, List.takeWhile_cons, beq_eq_false_iff_ne.mpr ha,
      Bool.not_false, if_true]
    rw [ih fun c hc => h c (List.mem_cons_of_mem a hc)]

lemma dropWhile_nodollar (l r : List Char) (h : ∀ c ∈ l, c ≠ '$') :
    (l ++ '$' :: r).dropWhile (fun c => !(c == '$')) = '$' :: r := by
  induction l with
  | nil => simp [List.dropWhile_cons]
  | cons a as ih =>
    have ha : a ≠ '$' := h a (List.mem_cons_self a as)
    simp only [List.cons_append, List.dropWhile_cons, beq_eq_false_iff_ne.mpr ha,
      Bool.not_false, if_true]
    exact ih fun c hc => h c (List.mem_cons_of_mem a hc)

/-- Evaluation of the credential checker on a credential produced by the
hash function: it reduces to a comparison of digests. -/
lemma check_password_hash_eval (salt pw cand : String)
    (hs : ∀ c ∈ salt.data, c ≠ '$') :
    check_password_hash (generate_password_hash salt pw) cand =
      (hashDigest (salt.data ++ pw.data) == hashDigest (salt.data ++ cand.data)) := by
  have hm : ∀ c ∈ "pbkdf2:sha256".data, c ≠ '$' := by decide
  have hdata : (generate_password_hash salt pw).data =
      "pbkdf2:sha256".data ++ '$' :: (salt.data ++ '$' ::
        hashDigest (salt.data ++ pw.data)) := rfl
  simp only [check_password_hash]
  rw [hdata, takeWhile_nodollar _ _ hm, dropWhile_nodollar _ _ hm]
  simp only [List.drop_succ_cons, List.drop_zero]
  rw [takeWhile_nodollar _ _ hs, dropWhile_nodollar _ _ hs]
  simp only [List.drop_succ_cons, List.drop_zero, beq_self_eq_true, Bool.true_and]

/-- The stored credential is never the plaintext: it is strictly longer. -/
lemma generate_password_hash_ne (salt p : String) :
    generate_password_hash salt p ≠ p := by
  intro he
  have hl := congrArg String.length he
  have hdata : (generate_password_hash salt p).data =
      "pbkdf2:sha256".data ++ '$' :: (salt.data ++ '$' ::
        hashDigest (salt.data ++ p.data)) := rfl
  have h13 : ("pbkdf2:sha256".data).length = 13 := by decide
  have hplen : p.length = p.data.length := rfl
  have hglen : (generate_password_hash salt p).length =
      ("pbkdf2:sha256".data ++ '$' :: (salt.data ++ '$' ::
        hashDigest (salt.data ++ p.data))).length := congrArg List.length hdata
  rw [hglen, hplen] at hl
  simp only [List.length_append, List.length_cons, hashDigest_length, h13] at hl
  omega

/-- Primary-key lookup: in a table whose ids are pairwise distinct,
`find?` by the id of a row returns exactly that row. -/
lemma find?_eq_of_mem_of_nodup {tasks : List Task} {T : Task}
    (hnd : (tasks.map Task.id).Nodup) (hT : T ∈ tasks) :
    tasks.find? (fun t => t.id == T.id) = some T := by
  induction tasks with
  | nil => cases hT
  | cons h t ih =>
    rw [List.map_cons, List.nodup_cons] at hnd
    rcases List.mem_cons.mp hT with rfl | hmem
    · simp [List.find?]
    · have hne : h.id ≠ T.id := by
        intro he
        exact hnd.1 (he ▸ List.mem_map_of_mem Task.id hmem)
      rw [List.find?]
      simp only [beq_eq_false_iff_ne.mpr hne]
      exact ih hnd.2 hmem

/-- C1: `listTasks(U)` returns exactly the tasks whose owning user id equals
U, and never a task owned by another user. -/
theorem tasks_list_exactly_owned (uid : Nat) (tasks : List Task) (t : Task) :
    t ∈ tasks_list uid tasks ↔ t ∈ tasks ∧ t.user_id = uid := by
  simp [tasks_list, List.mem_filter]

/-- C2: deleting a task owned by user A while authenticated as a different
user B fails with NotFoundOrForbidden and leaves the task table unchanged,
so the task still exists with all its fields intact; a delete that passes
the ownership check removes the row with that id permanently. -/
theorem delete_task_ownership (tasks : List Task) (A B tid : Nat) (T : Task)
    (hnd : (tasks.map Task.id).Nodup) :
    (T ∈ tasks → T.id = tid → T.user_id = A → A ≠ B →
      delete_task B tid tasks = (ActionResult.notFoundOrForbidden, tasks)) ∧
    (∀ t, tasks.find? (fun x => x.id == tid) = some t → t.user_id = B →
      delete_task B tid tasks =
        (ActionResult.ok, tasks.filter (fun x => !(x.id == tid))) ∧
      ∀ x ∈ (delete_task B tid tasks).2, x.id ≠ tid) := by
  constructor
  · intro hT htid hA hAB
    subst htid hA
    have hf := find?_eq_of_mem_of_nodup hnd hT
    have hne : T.user_id ≠ B := hAB
    simp [delete_task, hf, hne]
  · intro t hf ho
    have heq : delete_task B tid tasks =
        (ActionResult.ok, tasks.filter (fun x => !(x.id == tid))) := by
      simp [delete_task, hf, ho]
    refine ⟨heq, ?_⟩
    intro x hx
    rw [heq] at hx
    simp [List.mem_filter] at hx
    exact hx.2

theorem delete_task_ownership_witness :
    delete_task 2 1 [⟨1, "a", false, none, 1⟩] =
      (ActionResult.notFoundOrForbidden, [⟨1, "a", false, none, 1⟩]) :=
  (delete_task_ownership [⟨1, "a", false, none, 1⟩] 1 2 1 ⟨1, "a", false, none, 1⟩
    (by decide)).1 (by decide) rfl rfl (by decide)

/-- C3: the analytics summary counts, over the tasks owned by the user:
total, completed (done = true), pending = total minus completed, and
overdue (due date strictly before the current time and not done); a task
with no due date is never counted as overdue, and the handler returns the
task table unchanged. -/
theorem analytics_counts (uid : Nat) (now : DateTime) (tasks : List Task) :
    (analytics uid now tasks).2 = tasks ∧
    (analytics uid now tasks).1.total_tasks =
      tasks.countP (fun t => decide (t.user_id = uid)) ∧
    (analytics uid now tasks).1.completed_tasks =
      tasks.countP (fun t => decide (t.user_id = uid ∧ t.done = true)) ∧
    (analytics uid now tasks).1.pending_tasks =
      (analytics uid now tasks).1.total_tasks -
        (analytics uid now tasks).1.completed_tasks ∧
    (analytics uid now tasks).1.overdue_tasks =
      tasks.countP (fun t => decide (t.user_id = uid) && decide (t.done = false) &&
        t.due_date.any (fun d => dtLtB d now)) ∧
    (analytics uid now tasks).1.overdue_tasks ≤
      tasks.countP (fun t => t.due_date.isSome) := by
  refine ⟨rfl, ?_, ?_, rfl, ?_, ?_⟩
  · simp only [analytics, ← List.countP_eq_length_filter]
    apply List.countP_congr
    intro t _
    simp
  · simp only [analytics, List.countP_filter]
    apply List.countP_congr
    intro t _
    simp [and_comm]
  · simp only [analytics, List.countP_filter]
    apply List.countP_congr
    intro t _
    rcases t with ⟨i, c, d, dd, u⟩
    cases dd <;> cases d <;> simp [Option.any, and_comm]
  · simp only [analytics, List.countP_filter]
    apply List.countP_mono_left
    intro t _
    rcases t with ⟨i, c, d, dd, u⟩
    cases dd <;> simp

/-- C4: `addTask` with a due-date text that does not parse under the fixed
YYYY-MM-DD format (for example "2024-02-30") fails with FormatError and
persists no row; with a parseable date and non-empty content it inserts
exactly one task owned by the user with done = false. -/
theorem add_task_parse (uid nid : Nat) (content dtext : String) (tasks : List Task)
    (hc : content ≠ "") :
    (strptimeYMD dtext = none →
      add_task uid content dtext nid tasks = (AddResult.formatError, tasks)) ∧
    (∀ d, strptimeYMD dtext = some d →
      add_task uid content dtext nid tasks = (AddResult.ok, tasks ++
        [{ id := nid, content := content, done := false,
           due_date := some { date := d, sec := 0 }, user_id := uid }])) := by
  constructor
  · intro hp; simp [add_task, hc, hp]
  · intro d hp; simp [add_task, hc, hp]

theorem add_task_parse_witness :
    ("Buy milk" : String) ≠ "" ∧
    add_task 1 "Buy milk" "2024-02-30" 5 [] = (AddResult.formatError, []) :=
  ⟨by decide, (add_task_parse 1 5 "Buy milk" "2024-02-30" [] (by decide)).1 (by decide)⟩

/-- C5: `addTask` with empty content is rejected with ValidationError for
every due-date text, and the task table is unchanged. -/
theorem add_task_empty_content_rejected (uid nid : Nat) (dtext : String)
    (tasks : List Task) :
    add_task uid "" dtext nid tasks = (AddResult.validationError, tasks) := by
  simp [add_task]

/-- C6: after `resolveAll(U)` every task owned by U has done = true, tasks
of other users are unchanged, and applying `resolveAll(U)` a second time
leaves the entire task table unchanged. -/
theorem resolve_tasks_all_done_idem (uid : Nat) (tasks : List Task) :
    (resolve_tasks uid tasks).1 = ActionResult.ok ∧
    (resolve_tasks uid tasks).2 =
      tasks.map (fun t => if t.user_id = uid then { t with done := true } else t) ∧
    (∀ t ∈ (resolve_tasks uid tasks).2, t.user_id = uid → t.done = true) ∧
    (∀ t ∈ tasks, t.user_id ≠ uid → t ∈ (resolve_tasks uid tasks).2) ∧
    resolve_tasks uid (resolve_tasks uid tasks).2 =
      (ActionResult.ok, (resolve_tasks uid tasks).2) := by
  refine ⟨rfl, ?_, ?_, ?_, ?_⟩
  · apply List.map_congr_left
    intro t _
    rcases t with ⟨i, c, d, dd, u⟩
    cases d <;> by_cases hu : u = uid <;> simp [hu]
  · intro t ht hu
    simp [resolve_tasks, List.mem_map] at ht
    obtain ⟨s, _, rfl⟩ := ht
    rcases s with ⟨i, c, d, dd, su⟩
    cases d <;> by_cases hsu : su = uid <;> simp_all
  · intro t ht hu
    simp [resolve_tasks, List.mem_map]
    exact ⟨t, ht, by simp [hu]⟩
  · simp only [resolve_tasks, List.map_map]
    refine Prod.ext rfl ?_
    apply List.map_congr_left
    intro t _
    rcases t with ⟨i, c, d, dd, u⟩
    cases d <;> by_cases hu : u = uid <;> simp [hu]

theorem resolve_tasks_all_done_idem_witness :
    (⟨1, "a", true, none, 1⟩ : Task) ∈ (resolve_tasks 1 [⟨1, "a", false, none, 1⟩]).2 ∧
    (⟨1, "a", true, none, 1⟩ : Task).done = true :=
  ⟨by decide, (resolve_tasks_all_done_idem 1 [⟨1, "a", false, none, 1⟩]).2.2.1 _ (by decide) rfl⟩

/-- C7: toggling an owned task flips its done flag, and toggling twice is
the identity on the task table; when no task with the given id is owned by
the user, the toggle fails with NotFoundOrForbidden and changes nothing. -/
theorem toggle_status_pair (uid tid : Nat) (tasks : List Task) (T : Task) :
    ((tasks.map Task.id).Nodup → T ∈ tasks → T.id = tid → T.user_id = uid →
      (toggle_status uid tid tasks).1 = ActionResult.ok ∧
      (toggle_status uid tid tasks).2 =
        tasks.map (fun x => if x.id = tid then { x with done := !x.done } else x) ∧
      toggle_status uid tid (toggle_status uid tid tasks).2 = (ActionResult.ok, tasks)) ∧
    ((∀ t ∈ tasks, t.id = tid → t.user_id ≠ uid) →
      toggle_status uid tid tasks = (ActionResult.notFoundOrForbidden, tasks)) := by
  constructor
  · intro hnd hT htid huid
    subst htid huid
    have hf := find?_eq_of_mem_of_nodup hnd hT
    set f : Task → Task :=
      fun x => if x.id == T.id then { x with done := !x.done } else x with hfdef
    have hid : ∀ x : Task, (f x).id = x.id := by
      intro x
      by_cases hx : x.id = T.id <;> simp [hfdef, hx]
    have hone : toggle_status T.user_id T.id tasks = (ActionResult.ok, tasks.map f) := by
      simp [toggle_status, hf, hfdef]
    refine ⟨by rw [hone], ?_, ?_⟩
    · rw [hone]
      apply List.map_congr_left
      intro x _
      by_cases hx : x.id = T.id <;> simp [hfdef, hx]
    · rw [hone]
      have hcomp : (fun t : Task => t.id == T.id) ∘ f = fun t : Task => t.id == T.id := by
        funext x
        simp [Function.comp, hid x]
      have hf2 : (tasks.map f).find? (fun t => t.id == T.id) = some (f T) := by
        rw [List.find?_map, hcomp, hf]
        rfl
      have hfT : f T = { T with done := !T.done } := by simp [hfdef]
      have huid2 : (f T).user_id = T.user_id := by rw [hfT]
      simp only [toggle_status, hf2, huid2, beq_self_eq_true, if_pos]
      refine Prod.ext rfl ?_
      rw [List.map_map]
      have : ∀ x ∈ tasks, (f ∘ f) x = x := by
        intro x _
        rcases x with ⟨i, c, d, dd, u⟩
        by_cases hx : i = T.id <;> simp [hfdef, hx]
      rw [List.map_congr_left this]
      simp
  · intro hno
    cases hf : tasks.find? (fun t => t.id == tid) with
    | none => simp [toggle_status, hf]
    | some t =>
      have hmem := List.mem_of_find?_eq_some hf
      have hp := List.find?_some hf
      have htid : t.id = tid := by simpa using hp
      have hne : t.user_id ≠ uid := hno t hmem htid
      simp [toggle_status, hf, hne]

theorem toggle_status_pair_witness :
    toggle_status 7 1 ((toggle_status 7 1 [⟨1, "a", false, none, 7⟩]).2) =
      (ActionResult.ok, [⟨1, "a", false, none, 7⟩]) :=
  ((toggle_status_pair 7 1 [⟨1, "a", false, none, 7⟩] ⟨1, "a", false, none, 7⟩).1
    (by decide) (by decide) rfl rfl).2.2

/-- C8: registering a username that already exists fails with a conflict
and persists no new user row; the same holds for an already-registered
email; when neither the username nor the email exists, exactly one user
row is inserted. -/
theorem register_unique (u e p salt : String) (nid : Nat) (users : List User) :
    ((∃ x ∈ users, x.username = u) →
      register u e p salt nid users = (RegisterResult.conflictUsername, users)) ∧
    ((∃ x ∈ users, x.email = e) →
      (register u e p salt nid users).2 = users ∧
      ((register u e p salt nid users).1 = RegisterResult.conflictUsername ∨
       (register u e p salt nid users).1 = RegisterResult.conflictEmail)) ∧
    ((¬ ∃ x ∈ users, x.username = u) → (¬ ∃ x ∈ users, x.email = e) →
      register u e p salt nid users = (RegisterResult.ok, users ++
        [{ id := nid, username := u, email := e,
           password := generate_password_hash salt p }])) := by
  refine ⟨?_, ?_, ?_⟩
  · rintro ⟨x, hx, hxu⟩
    have hsome : (users.find? (fun y => y.username == u)).isSome :=
      List.find?_isSome.mpr ⟨x, hx, by simp [hxu]⟩
    cases hfu : users.find? (fun y => y.username == u) with
    | none => rw [hfu] at hsome; cases hsome
    | some y => simp [register, hfu]
  · rintro ⟨x, hx, hxe⟩
    cases hfu : users.find? (fun y => y.username == u) with
    | some y => simp [register, hfu]
    | none =>
      have hsome : (users.find? (fun y => y.email == e)).isSome :=
        List.find?_isSome.mpr ⟨x, hx, by simp [hxe]⟩
      cases hfe : users.find? (fun y => y.email == e) with
      | none => rw [hfe] at hsome; cases hsome
      | some y => simp [register, hfu, hfe]
  · intro hnu hne
    have hfu : users.find? (fun y => y.username == u) = none := by
      rw [List.find?_eq_none]
      intro x hx hxu
      exact hnu ⟨x, hx, by simpa using hxu⟩
    have hfe : users.find? (fun y => y.email == e) = none := by
      rw [List.find?_eq_none]
      intro x hx hxe
      exact hne ⟨x, hx, by simpa using hxe⟩
    simp [register, hfu, hfe]

theorem register_unique_witness :
    register "alice" "b@y.com" "pw" "s" 2 [⟨1, "alice", "a@x.com", "h"⟩] =
      (RegisterResult.conflictUsername, [⟨1, "alice", "a@x.com", "h"⟩]) :=
  (register_unique "alice" "b@y.com" "pw" "s" 2 [⟨1, "alice", "a@x.com", "h"⟩]).1
    ⟨⟨1, "alice", "a@x.com", "h"⟩, by simp, rfl⟩

/-- C9: a successful registration stores a salted hash that never equals
the plaintext password; verifying the correct password against the stored
credential succeeds and verifying any other string fails. -/
theorem register_hashes_password (users : List User) (u e p q salt : String)
    (nid : Nat) (hs : ∀ c ∈ salt.data, c ≠ '$')
    (hok : (register u e p salt nid users).1 = RegisterResult.ok) :
    (register u e p salt nid users).2 =
      users ++ [{ id := nid, username := u, email := e,
                  password := generate_password_hash salt p }] ∧
    generate_password_hash salt p ≠ p ∧
    check_password_hash (generate_password_hash salt p) p = true ∧
    (q ≠ p → check_password_hash (generate_password_hash salt p) q = false) := by
  refine ⟨?_, generate_password_hash_ne salt p, ?_, ?_⟩
  · cases hfu : users.find? (fun y => y.username == u) with
    | some y => simp [register, hfu] at hok
    | none =>
      cases hfe : users.find? (fun y => y.email == e) with
      | some y => simp [register, hfu, hfe] at hok
      | none => simp [register, hfu, hfe]
  · rw [check_password_hash_eval salt p p hs]
    exact beq_self_eq_true _
  · intro hq
    rw [check_password_hash_eval salt p q hs]
    rw [beq_eq_false_iff_ne]
    intro hdig
    apply hq
    have := List.append_cancel_left (hashDigest_inj hdig)
    exact (String.ext this).symm

theorem register_hashes_password_witness :
    check_password_hash (generate_password_hash "ab" "pw") "pw" = true ∧
    check_password_hash (generate_password_hash "ab" "pw") "zz" = false :=
  have h := register_hashes_password [] "alice" "a@x.com" "pw" "zz" "ab" 1
    (by decide) (by decide)
  ⟨h.2.2.1, h.2.2.2 (by decide)⟩

/-- C10: every task created through the add-task route has a non-null due
date: a due-date text that does not parse (in particular the empty string)
persists no row, so the invariant that every stored task carries some due
date is preserved by the operation, although the column is declared
optional. -/
theorem add_task_due_date_invariant (uid nid : Nat) (content dtext : String)
    (tasks : List Task) (h : ∀ t ∈ tasks, t.due_date.isSome) :
    (strptimeYMD dtext = none → (add_task uid content dtext nid tasks).2 = tasks) ∧
    (∀ t ∈ (add_task uid content dtext nid tasks).2, t.due_date.isSome) := by
  constructor
  · intro hp; by_cases hc : content = "" <;> simp [add_task, hc, hp]
  · intro t ht
    by_cases hc : content = ""
    · simp [add_task, hc] at ht; exact h t ht
    · cases hp : strptimeYMD dtext with
      | none => simp [add_task, hc, hp] at ht; exact h t ht
      | some d =>
        simp [add_task, hc, hp, List.mem_append] at ht
        rcases ht with ht | rfl
        · exact h t ht
        · rfl

theorem add_task_due_date_invariant_witness :
    (∀ t ∈ ([] : List Task), t.due_date.isSome) ∧
    (add_task 1 "x" "" 7 []).2 = [] :=
  ⟨by simp, (add_task_due_date_invariant 1 7 "x" "" [] (by simp)).1 (by decide)⟩

end ToDoApp
